import Mathlib

/-!
Verification of the calendar report-count subsystem of the S3 report browser.

The subsystem lives in the variants of the useCalendar hook (the three unnamed
source files implementing fetchMonthReportCounts / fetchReportCounts / useCalendar)
and in the useReports hook.  We embed the month cache, the batch and fan-out
aggregation strategies, the mount logic, and the report-list hook as pure
functions.  Network effects and state publications are recorded in an ordered
event trace so that claims about call counts and ordering can be stated.

Conventions:
- JavaScript Record objects become association lists with unique keys
  (List (String × _)); assignment k := v updates the first occurrence of k in
  place, or appends, exactly as object assignment preserves insertion order.
- Date.now() readings become explicit Nat parameters (one per textual read).
- The month of a JS Date is embedded as a Ymd value; date-fns formatting with
  the patterns yyyy-MM, yyyy-MM-dd, yyyy/MM/dd and yyyy/MM/ becomes the fmt
  functions below.
- The AbortController in the fan-out variant is never wired into axios (the
  listReports call takes no signal), but the code still branches on AbortError;
  we keep that branch, driven by the per-day oracle.
-/

/-- A calendar date: year, month (1-12), day of month. -/
structure Ymd where
  y : Nat
  m : Nat
  d : Nat
deriving DecidableEq

/-- Gregorian leap-year rule, as used by date-fns endOfMonth. -/
def isLeap (y : Nat) : Bool :=
  y % 4 == 0 && (y % 100 != 0 || y % 400 == 0)

/-- Number of days in a month, per the civil calendar. -/
def daysInMonth (y m : Nat) : Nat :=
  if m == 2 then (if isLeap y then 29 else 28)
  else if m == 4 || m == 6 || m == 9 || m == 11 then 30
  else 31

/-- eachDayOfInterval from startOfMonth to endOfMonth: every day of the month. -/
def monthDays (y m : Nat) : List Ymd :=
  (List.range (daysInMonth y m)).map (fun i => ⟨y, m, i + 1⟩)

/-- Two-digit zero padding (date-fns MM / dd). -/
def pad2 (n : Nat) : String := if n < 10 then "0" ++ toString n else toString n

/-- Four-digit zero padding (date-fns yyyy). -/
def pad4 (n : Nat) : String :=
  if n < 10 then "000" ++ toString n
  else if n < 100 then "00" ++ toString n
  else if n < 1000 then "0" ++ toString n
  else toString n

/-- format(date, "yyyy-MM"): the month key. -/
def fmtYm (x : Ymd) : String := pad4 x.y ++ "-" ++ pad2 x.m

/-- format(date, "yyyy-MM-dd"): the day key used in count tables. -/
def fmtYmd (x : Ymd) : String := pad4 x.y ++ "-" ++ pad2 x.m ++ "-" ++ pad2 x.d

/-- format(day, "yyyy/MM/dd"): the per-day listing path sent to the remote source. -/
def dayPfx (x : Ymd) : String := pad4 x.y ++ "/" ++ pad2 x.m ++ "/" ++ pad2 x.d

/-- format(date, "yyyy/MM/"): the month-scoped listing path of the batch strategy. -/
def monthPfx (x : Ymd) : String := pad4 x.y ++ "/" ++ pad2 x.m ++ "/"

/-- Record lookup: the value stored under a key, if any. -/
def getA {β : Type} : List (String × β) → String → Option β
  | [], _ => none
  | (k2, v) :: t, k => if k = k2 then some v else getA t k

/-- Record assignment obj[k] = v: update in place, or append a new key. -/
def setA {β : Type} : List (String × β) → String → β → List (String × β)
  | [], k, v => [(k, v)]
  | (k2, v2) :: t, k, v => if k = k2 then (k, v) :: t else (k2, v2) :: setA t k v

/-- Object.keys. -/
def keysA {β : Type} (t : List (String × β)) : List String := t.map Prod.fst

/-- A day-to-count table (Record of string day keys to numbers). -/
abbrev Table := List (String × Int)

/-- A cache entry: the counts table plus the Date.now() at which it was computed. -/
structure Entry where
  counts : Table
  timestamp : Nat
deriving DecidableEq

/-- Observable effects of one run, in program order: a network listing request,
a write into the module-level reportCountsCache, or a setReportCounts call. -/
inductive Ev where
  | remote (p : String)
  | cacheW (k : String) (t : Table)
  | publishT (t : Table)
deriving DecidableEq

/-- The mutable state a fetch touches: the shared cache map, the published
reportCounts table, and the loading flag. -/
structure St where
  cache : List (String × Entry)
  published : Table
  loading : Bool
deriving DecidableEq

/-- isCacheValid from the hook variants: an entry exists and its age, measured
as Date.now() minus its timestamp, is strictly below the TTL. -/
def isCacheValid (cache : List (String × Entry)) (monthKey : String) (now ttl : Nat) : Bool :=
  match getA cache monthKey with
  | none => false
  | some e => decide (now - e.timestamp < ttl)

/-- CACHE_DURATION of the 10-minute variants. -/
def CACHE_DURATION : Nat := 10 * 60 * 1000

/-- config.cacheDuration of the 30-minute variant. -/
def configCacheDuration : Nat := 30 * 60 * 1000

/-- The zero-initialised working table: one entry per day of the month, all 0. -/
def zeroT (days : List Ymd) : Table := days.map (fun d => (fmtYmd d, (0 : Int)))

/-- Shape of the month-scoped batch response: an optional per-day count object
and an optional raw details array of storage paths (only the path field is
read by the aggregation code). -/
structure BResp where
  bcounts : Option (List (String × Int))
  details : Option (List String)
deriving DecidableEq

/-- One attempt of the regex \d{4}/\d{2}/\d{2} at the head of the character list. -/
def matchAt : List Char → Option (List Char)
  | a :: b :: c :: d :: s1 :: e :: f :: s2 :: g :: h :: _ =>
    if a.isDigit && b.isDigit && c.isDigit && d.isDigit && s1 == '/' &&
       e.isDigit && f.isDigit && s2 == '/' && g.isDigit && h.isDigit
    then some [a, b, c, d, s1, e, f, s2, g, h] else none
  | _ => none

/-- String.match with /\d{4}\/\d{2}\/\d{2}/: the leftmost occurrence. -/
def firstDateMatch : List Char → Option (List Char)
  | [] => none
  | x :: rest =>
    match matchAt (x :: rest) with
    | some s => some s
    | none => firstDateMatch rest

/-- match[0].split("/") rejoined with dashes: the derived yyyy-MM-dd day key. -/
def dashStr (cs : List Char) : String :=
  String.mk (cs.map (fun c => if c == '/' then '-' else c))

/-- The day key a details item is grouped under, if its path has a date match. -/
def dayKeyOf (path : String) : Option String :=
  (firstDateMatch path.toList).map dashStr

/-- counts[dayStr] += 1 guarded by counts[dayStr] !== undefined. -/
def incrG (t : Table) (k : String) : Table :=
  match getA t k with
  | some v => setA t k (v + 1)
  | none => t

/-- The body of the batch strategy after the month listing resolves: either
copy backend counts for keys already in the working table, or group the raw
details by the date matched in each path, or leave the zeros untouched. -/
def p2apply (zeros : Table) (r : BResp) : Table :=
  match r.bcounts with
  | some cm =>
    cm.foldl (fun t p => if (getA t p.1).isSome then setA t p.1 p.2 else t) zeros
  | none =>
    match r.details with
    | some l =>
      l.foldl (fun t path =>
        match dayKeyOf path with
        | some ds => incrG t ds
        | none => t) zeros
    | none => zeros

/-- fetchMonthReportCounts of the batch variant.  The resp argument is the
outcome of the awaited listReports(monthPrefix) call; nowChk and nowC are the
two Date.now() readings (cache check, cache commit).  On a fresh cache hit the
cached table is published and nothing else happens.  On a miss the zero table
is built (but not published), the month listing is issued, and on success the
resulting table is cached and published; on failure the error is swallowed and
only the loading flag is reset. -/
def p2fetch (st : St) (date : Ymd) (resp : Except Unit BResp) (nowChk nowC ttl : Nat) :
    St × List Ev :=
  let mk := fmtYm date
  let days := monthDays date.y date.m
  let zeros := zeroT days
  let miss : St × List Ev :=
    match resp with
    | .error _ => ({ st with loading := false }, [Ev.remote (monthPfx date)])
    | .ok r =>
      let counts := p2apply zeros r
      ({ cache := setA st.cache mk ⟨counts, nowC⟩, published := counts, loading := false },
       [Ev.remote (monthPfx date), Ev.cacheW mk counts, Ev.publishT counts])
  match getA st.cache mk with
  | some e =>
    if nowChk - e.timestamp < ttl then
      ({ st with published := e.counts }, [Ev.publishT e.counts])
    else miss
  | none => miss

/-- Outcome of one per-day listReports call in the fan-out variant: a resolved
listing of n reports, a non-abort rejection (timeout, error response, malformed
payload), or an AbortError rejection. -/
inductive DayRes where
  | ok (n : Nat)
  | err
  | aborted
deriving DecidableEq

/-- The count a settled per-day promise contributes: reports.length on success,
0 from the local catch on a non-abort failure. -/
def dayCount : DayRes → Int
  | .ok n => (n : Int)
  | .err => 0
  | .aborted => 0

/-- The join of the fan-out: results.forEach writes each day's settled count
into the working table. -/
def p3join (zeros : Table) (days : List Ymd) (o : Ymd → DayRes) : Table :=
  (days.map (fun d => (fmtYmd d, dayCount (o d)))).foldl (fun t p => setA t p.1 p.2) zeros

/-- fetchReportCounts of the full fan-out variant.  o gives each per-day
request's outcome; keyAtJoin is the value of currentMonthKey.current when the
join completes (it changes when the user navigates to another month while the
requests are in flight).  A fresh, nonempty cache entry is published directly.
Otherwise the zero table is published immediately, one request per day of the
month is issued, and at the join: if any day rejected with AbortError the outer
catch returns (no cache write, no publish; the finally resets loading only if
the attempt is still current); otherwise the joined table is written to the
cache unconditionally and published only if the attempt is still current. -/
def p3fetch (st : St) (date : Ymd) (o : Ymd → DayRes) (keyAtJoin : String)
    (nowChk nowC ttl : Nat) : St × List Ev :=
  let mk := fmtYm date
  let days := monthDays date.y date.m
  let zeros := zeroT days
  let calls := days.map (fun d => Ev.remote (dayPfx d))
  let miss : St × List Ev :=
    if days.any (fun d => decide (o d = DayRes.aborted)) then
      ({ st with published := zeros, loading := if keyAtJoin = mk then false else true },
       Ev.publishT zeros :: calls)
    else
      let counts := p3join zeros days o
      let cache2 := setA st.cache mk ⟨counts, nowC⟩
      if keyAtJoin = mk then
        ({ cache := cache2, published := counts, loading := false },
         Ev.publishT zeros :: calls ++ [Ev.cacheW mk counts, Ev.publishT counts])
      else
        ({ cache := cache2, published := zeros, loading := true },
         Ev.publishT zeros :: calls ++ [Ev.cacheW mk counts])
  match getA st.cache mk with
  | some e =>
    if nowChk - e.timestamp < ttl ∧ 0 < e.counts.length then
      ({ st with published := e.counts }, [Ev.publishT e.counts])
    else miss
  | none => miss

/-- The mount effect of the fan-out variant: set currentMonthKey to the month
of today; on a fresh cached entry publish it and stop; otherwise publish the
zero table and run fetchReportCounts for today.  Returns the final state, the
month key stored in the ref, and the event trace. -/
def p3mount (cache : List (String × Entry)) (today : Ymd) (o : Ymd → DayRes)
    (keyAtJoin : String) (nowChk nowC ttl : Nat) : St × String × List Ev :=
  let mk := fmtYm today
  let zeros := zeroT (monthDays today.y today.m)
  match getA cache mk with
  | some e =>
    if nowChk - e.timestamp < ttl then
      (⟨cache, e.counts, false⟩, mk, [Ev.publishT e.counts])
    else
      let r := p3fetch ⟨cache, zeros, false⟩ today o keyAtJoin nowChk nowC ttl
      (r.1, mk, Ev.publishT zeros :: r.2)
  | none =>
    let r := p3fetch ⟨cache, zeros, false⟩ today o keyAtJoin nowChk nowC ttl
    (r.1, mk, Ev.publishT zeros :: r.2)

/-- The mount effect of the trailing-window variant: it stores the month key,
publishes the zero table and marks the hook initialised, and does not invoke
fetchReportCounts at all (the selected-date effect is also inert at mount since
selectedDate starts as null). -/
def p4mount (cache : List (String × Entry)) (today : Ymd) : St × String × List Ev :=
  let zeros := zeroT (monthDays today.y today.m)
  (⟨cache, zeros, false⟩, fmtYm today, [Ev.publishT zeros])

/-- Modelled from the spec: the number of items whose storage path contains the
given day's date under the fixed YYYY/MM/DD pattern (substring containment),
the reading of the grouping rule given in the specification. -/
def isPreC : List Char → List Char → Bool
  | [], _ => true
  | _ :: _, [] => false
  | a :: as, b :: bs => a == b && isPreC as bs

/-- Substring test used by the spec-side count. -/
def hasSub (pat : List Char) : List Char → Bool
  | [] => isPreC pat []
  | c :: rest => isPreC pat (c :: rest) || hasSub pat rest

/-- Modelled from the spec: how many paths contain the day's yyyy/MM/dd date. -/
def specPathCount (paths : List String) (x : Ymd) : Nat :=
  paths.countP (fun p => hasSub (dayPfx x).toList p.toList)

/-- How many paths the code groups under a given day key: those whose leftmost
date-pattern match in the path derives exactly that key. -/
def countKey (l : List String) (k : String) : Nat :=
  l.countP (fun p => dayKeyOf p == some k)

/-- Timestamp of a mapped report row: parsed from lastModified when that field
is a nonempty string, otherwise the client clock (new Date()). -/
inductive TStamp where
  | parsed (s : String)
  | clientNow
deriving DecidableEq

/-- The size field of an API detail row: a number, or some other raw value kept
as a string (the code only formats it when typeof size is number). -/
inductive SizeV where
  | num (n : Int)
  | raw (s : String)
deriving DecidableEq

/-- One row of apiReports.details as read by useReports. -/
structure ApiDetail where
  name : String
  path : String
  lastModified : String
  size : SizeV
deriving DecidableEq

/-- One mapped report row produced by useReports. -/
structure RItem where
  id : String
  title : String
  rtype : String
  size : String
  timestamp : TStamp
deriving DecidableEq

/-- One-decimal rendering of n divided by den, used for the KB / MB size text.
The JS code renders (size/den).toFixed(1) on a float; the exact decimal
rounding of that double is immaterial to every claim, so this helper renders
the truncated one-decimal expansion. -/
def fix1 (n den : Int) : String :=
  let t := n * 10 / den
  toString (t / 10) ++ "." ++ toString (t % 10)

/-- The size text: strictly more than 1 MiB renders in MB, strictly more than
1 KiB renders in KB, otherwise bytes; non-numeric sizes pass through. -/
def sizeStr : SizeV → String
  | .raw s => s
  | .num n =>
    if n > 1024 * 1024 then fix1 n (1024 * 1024) ++ " MB"
    else if n > 1024 then fix1 n 1024 ++ " KB"
    else toString n ++ " B"

/-- File-type guess from the name's extension. -/
def guessType (nm : String) : String :=
  if nm.endsWith ".pdf" then "PDF"
  else if nm.endsWith ".xlsx" then "XLSX"
  else if nm.endsWith ".docx" then "DOCX"
  else "OTHER"

/-- The row mapping inside useReports (JS || falls through empty strings). -/
def mapDetail (idx : Nat) (r : ApiDetail) : RItem :=
  { id := if r.path ≠ "" then r.path else if r.name ≠ "" then r.name else toString idx
    title := r.name
    rtype := guessType r.name
    size := sizeStr r.size
    timestamp := if r.lastModified ≠ "" then TStamp.parsed r.lastModified else TStamp.clientNow }

/-- The state useReports owns: the mapped rows, the loading flag, the error. -/
structure RSt where
  reports : List RItem
  loading : Bool
  rerror : Option String
deriving DecidableEq

/-- The useReports effect body.  With no selected date it publishes the empty
list and returns (no loading or error update, no network).  With a selected
date it issues the day listing; a rejection stores the message in the error
state, a resolution (whose details field may or may not be an array) maps the
rows; loading ends false and a resolution clears the error. -/
def useReportsStep (st : RSt) (sel : Option Ymd)
    (resp : Except String (Option (List ApiDetail))) : RSt × List Ev :=
  match sel with
  | none => ({ st with reports := [] }, [])
  | some d =>
    match resp with
    | .error msg => ({ st with loading := false, rerror := some msg }, [Ev.remote (dayPfx d)])
    | .ok dets =>
      let l := dets.getD []
      ({ reports := l.enum.map (fun p => mapDetail p.1 p.2), loading := false, rerror := none },
       [Ev.remote (dayPfx d)])

/-- Event classifiers for counting calls in traces. -/
def isRemoteEv : Ev → Bool
  | .remote _ => true
  | _ => false

/-- Classifier for cache-write events. -/
def isCacheWEv : Ev → Bool
  | .cacheW _ _ => true
  | _ => false

/-- Classifier for publish events. -/
def isPublishEv : Ev → Bool
  | .publishT _ => true
  | _ => false

/-! ### Association-list lemmas -/

theorem getA_setA_self {β : Type} (t : List (String × β)) (k : String) (v : β) :
    getA (setA t k v) k = some v := by
  induction t with
  | nil => simp [setA, getA]
  | cons p t ih =>
    obtain ⟨k2, v2⟩ := p
    by_cases h : k = k2
    · simp [setA, getA, h]
    · simp [setA, getA, h, ih]

theorem getA_setA_ne {β : Type} (t : List (String × β)) (k k2 : String) (v : β)
    (h : k ≠ k2) : getA (setA t k2 v) k = getA t k := by
  induction t with
  | nil => simp [setA, getA, h]
  | cons p t ih =>
    obtain ⟨k3, v3⟩ := p
    by_cases h2 : k2 = k3
    · subst h2; simp [setA, getA, h]
    · by_cases h3 : k = k3 <;> simp [setA, getA, h2, h3, ih]

theorem mem_keysA_of_getA {β : Type} (t : List (String × β)) (k : String)
    (h : (getA t k).isSome = true) : k ∈ keysA t := by
  induction t with
  | nil => simp [getA] at h
  | cons p t ih =>
    obtain ⟨k2, v2⟩ := p
    by_cases h2 : k = k2
    · simp [keysA, h2]
    · simp [getA, h2] at h
      simpa [keysA] using Or.inr (ih h)

theorem getA_isSome_of_mem {β : Type} (t : List (String × β)) (k : String)
    (h : k ∈ keysA t) : (getA t k).isSome = true := by
  induction t with
  | nil => simp [keysA] at h
  | cons p t ih =>
    obtain ⟨k2, v2⟩ := p
    by_cases h2 : k = k2
    · simp [getA, h2]
    · have h3 : k = k2 ∨ k ∈ keysA t := by simpa [keysA] using h
      rcases h3 with h3 | h3
      · exact absurd h3 h2
      · simpa [getA, h2] using ih h3

theorem keysA_setA_mem {β : Type} (t : List (String × β)) (k : String) (v : β)
    (h : k ∈ keysA t) : keysA (setA t k v) = keysA t := by
  induction t with
  | nil => simp [keysA] at h
  | cons p t ih =>
    obtain ⟨k2, v2⟩ := p
    by_cases h2 : k = k2
    · simp [setA, keysA, h2]
    · have hmem : k ∈ keysA t := by
        have h3 : k = k2 ∨ k ∈ keysA t := by simpa [keysA] using h
        rcases h3 with h3 | h3
        · exact absurd h3 h2
        · exact h3
      have ih2 := ih hmem
      simp only [keysA] at ih2 ⊢
      simp [setA, h2, ih2]

/-- The last value assigned to a key by a sequence of assignments, if any. -/
def lastA {β : Type} : List (String × β) → String → Option β
  | [], _ => none
  | (k2, v2) :: t, k =>
    match lastA t k with
    | some v => some v
    | none => if k = k2 then some v2 else none

theorem lastA_eq_none {β : Type} (us : List (String × β)) (k : String)
    (h : k ∉ us.map Prod.fst) : lastA us k = none := by
  induction us with
  | nil => rfl
  | cons p us ih =>
    obtain ⟨k2, v2⟩ := p
    simp only [List.map_cons, List.mem_cons] at h
    push_neg at h
    simp [lastA, ih h.2, h.1]

theorem lastA_mem {β : Type} (us : List (String × β)) (k : String) (v : β)
    (h : lastA us k = some v) : (k, v) ∈ us := by
  induction us with
  | nil => simp [lastA] at h
  | cons p us ih =>
    obtain ⟨k2, v2⟩ := p
    simp only [lastA] at h
    rcases h2 : lastA us k with _ | v3
    · rw [h2] at h
      by_cases h3 : k = k2
      · simp [h3] at h
        simp [h3, h]
      · simp [h3] at h
    · rw [h2] at h
      simp at h
      subst h
      exact List.mem_cons_of_mem _ (ih h2)

theorem getA_foldl_setA {β : Type} (us : List (String × β)) (t : List (String × β)) (k : String) :
    getA (us.foldl (fun a p => setA a p.1 p.2) t) k =
      match lastA us k with
      | some v => some v
      | none => getA t k := by
  induction us generalizing t with
  | nil => rfl
  | cons p us ih =>
    obtain ⟨k2, v2⟩ := p
    simp only [List.foldl_cons, lastA]
    rw [ih (setA t k2 v2)]
    rcases h2 : lastA us k with _ | v3
    · by_cases h3 : k = k2
      · subst h3; simp [getA_setA_self]
      · simp [h3, getA_setA_ne t k k2 v2 h3]
    · rfl

theorem keysA_foldl_setA {β : Type} (us : List (String × β)) (t : List (String × β))
    (h : ∀ p ∈ us, p.1 ∈ keysA t) :
    keysA (us.foldl (fun a p => setA a p.1 p.2) t) = keysA t := by
  induction us generalizing t with
  | nil => rfl
  | cons p us ih =>
    obtain ⟨k2, v2⟩ := p
    simp only [List.foldl_cons]
    have hk : k2 ∈ keysA t := h (k2, v2) (List.mem_cons_self _ _)
    have hkeys := keysA_setA_mem t k2 v2 hk
    rw [ih (setA t k2 v2) (fun q hq => by rw [hkeys]; exact h q (List.mem_cons_of_mem _ hq))]
    exact hkeys

/-- The guarded copy of backend counts preserves the key set of the table. -/
theorem keysA_gfold (us : List (String × Int)) (t : Table) :
    keysA (us.foldl (fun a p => if (getA a p.1).isSome then setA a p.1 p.2 else a) t) =
      keysA t := by
  induction us generalizing t with
  | nil => rfl
  | cons p us ih =>
    obtain ⟨k2, v2⟩ := p
    simp only [List.foldl_cons]
    by_cases h : (getA t k2).isSome = true
    · rw [if_pos h, ih (setA t k2 v2), keysA_setA_mem t k2 v2 (mem_keysA_of_getA t k2 h)]
    · rw [if_neg h, ih t]

/-- The value a key holds after the guarded copy of backend counts: the last
matching backend entry whose key was already in the table, else unchanged. -/
theorem getA_gfold (us : List (String × Int)) (t : Table) (k : String) :
    getA (us.foldl (fun a p => if (getA a p.1).isSome then setA a p.1 p.2 else a) t) k =
      match lastA (us.filter (fun p => (getA t p.1).isSome)) k with
      | some v => some v
      | none => getA t k := by
  induction us generalizing t with
  | nil => rfl
  | cons p us ih =>
    obtain ⟨k2, v2⟩ := p
    simp only [List.foldl_cons]
    by_cases h : (getA t k2).isSome = true
    · rw [if_pos h, ih (setA t k2 v2)]
      have hpres : ∀ x : String × Int,
          (getA (setA t k2 v2) x.1).isSome = (getA t x.1).isSome := by
        intro x
        by_cases h3 : x.1 = k2
        · rw [h3, getA_setA_self]; exact (h.symm ▸ rfl)
        · rw [getA_setA_ne t x.1 k2 v2 h3]
      have hfe : us.filter (fun p => (getA (setA t k2 v2) p.1).isSome) =
          us.filter (fun p => (getA t p.1).isSome) :=
        List.filter_congr (fun x _ => hpres x)
      rw [hfe]
      simp only [List.filter_cons, h, if_pos trivial]
      simp only [lastA]
      rcases h2 : lastA (us.filter (fun p => (getA t p.1).isSome)) k with _ | v3
      · by_cases h3 : k = k2
        · subst h3; simp [getA_setA_self]
        · simp [h3, getA_setA_ne t k k2 v2 h3]
      · rfl
    · rw [if_neg h, ih t]
      simp only [List.filter_cons]
      have hb : ((getA t k2).isSome = true) = False := by simp [h]
      simp [h]

/-- Grouping the details preserves the key set of the table. -/
theorem keysA_ifold (l : List String) (t : Table) :
    keysA (l.foldl (fun a path =>
      match dayKeyOf path with
      | some ds => incrG a ds
      | none => a) t) = keysA t := by
  induction l generalizing t with
  | nil => rfl
  | cons p l ih =>
    simp only [List.foldl_cons]
    rcases h : dayKeyOf p with _ | ds
    · exact ih t
    · rw [ih (incrG t ds)]
      unfold incrG
      rcases h2 : getA t ds with _ | v
      · rfl
      · exact keysA_setA_mem t ds (v + 1)
          (mem_keysA_of_getA t ds (by rw [h2]; rfl))

/-- Incrementing a key adds one to its value. -/
theorem getA_incrG_self (t : Table) (k : String) :
    getA (incrG t k) k = (getA t k).map (fun v => v + 1) := by
  unfold incrG
  rcases h : getA t k with _ | v
  · simp [h]
  · simp [h, getA_setA_self]

/-- Incrementing one key leaves every other key unchanged. -/
theorem getA_incrG_ne (t : Table) (k ds : String) (h : ds ≠ k) :
    getA (incrG t ds) k = getA t k := by
  unfold incrG
  rcases h3 : getA t ds with _ | v
  · rfl
  · exact getA_setA_ne t k ds (v + 1) (fun hc => h hc.symm)

/-- The value a key holds after grouping the details: its previous value plus
the number of items whose leftmost path date derives that key. -/
theorem getA_ifold (l : List String) (t : Table) (k : String) :
    getA (l.foldl (fun a path =>
      match dayKeyOf path with
      | some ds => incrG a ds
      | none => a) t) k =
      (getA t k).map (fun v => v + (countKey l k : Int)) := by
  induction l generalizing t with
  | nil =>
    rcases h : getA t k with _ | v <;> simp [countKey, h]
  | cons p l ih =>
    simp only [List.foldl_cons]
    have hck : countKey (p :: l) k =
        countKey l k + (if (dayKeyOf p == some k) = true then 1 else 0) := by
      simp [countKey, List.countP_cons]
    rcases h : dayKeyOf p with _ | ds
    · rw [ih t, hck]
      have hb : (dayKeyOf p == some k) = false := by rw [h]; rfl
      rw [hb]
      simp
    · by_cases h2 : ds = k
      · subst h2
        have hb : (dayKeyOf p == some ds) = true := by rw [h]; simp
        rw [ih (incrG t ds), hck, hb, getA_incrG_self]
        rcases h3 : getA t ds with _ | v
        · simp [h3]
        · show some (v + 1 + (countKey l ds : Int)) = some (v + ((countKey l ds : Int) + 1))
          congr 1
          ring
      · have hb : (dayKeyOf p == some k) = false := by rw [h]; simp [h2]
        rw [ih (incrG t ds), hck, hb, getA_incrG_ne t k ds h2]
        simp

/-- Entries whose key satisfies the filter always survive it, so the last
value assigned to such a key is unchanged by the filter. -/
theorem lastA_filter {β : Type} (us : List (String × β)) (q : String × β → Bool) (k : String)
    (h : ∀ v, q (k, v) = true) : lastA (us.filter q) k = lastA us k := by
  induction us with
  | nil => rfl
  | cons p us ih =>
    obtain ⟨k2, v2⟩ := p
    rcases h3 : q (k2, v2) with _ | _
    · have h2 : k ≠ k2 := by
        intro hc
        rw [hc] at h
        rw [h v2] at h3
        cases h3
      rw [List.filter_cons, h3]
      simp only [Bool.false_eq_true, if_false]
      rw [ih]
      rcases h4 : lastA us k with _ | v
      · simp [lastA, h4, h2]
      · simp [lastA, h4]
    · rw [List.filter_cons, h3]
      simp only [if_pos]
      simp [lastA, ih]

/-! ### Day-key lemmas -/

theorem daysInMonth_le (y m : Nat) : daysInMonth y m ≤ 31 := by
  unfold daysInMonth
  split
  · split <;> omega
  · split <;> omega

theorem pad2_inj31 : ∀ a < 32, ∀ b < 32, pad2 a = pad2 b → a = b := by decide

theorem strAppend_left_cancel (s a b : String) (h : s ++ a = s ++ b) : a = b := by
  have hd : (s ++ a).data = (s ++ b).data := congrArg String.data h
  rw [String.data_append, String.data_append] at hd
  exact String.ext (List.append_cancel_left hd)

theorem mem_monthDays (y m : Nat) (a : Ymd) (h : a ∈ monthDays y m) :
    a.y = y ∧ a.m = m ∧ 0 < a.d ∧ a.d ≤ daysInMonth y m := by
  unfold monthDays at h
  simp only [List.mem_map, List.mem_range] at h
  obtain ⟨i, hi, rfl⟩ := h
  refine ⟨rfl, rfl, ?_, ?_⟩ <;> simp only [] <;> omega

theorem fmtYmd_inj_month (y m : Nat) (a b : Ymd) (ha : a ∈ monthDays y m)
    (hb : b ∈ monthDays y m) (h : fmtYmd a = fmtYmd b) : a = b := by
  obtain ⟨hay, ham, had1, had2⟩ := mem_monthDays y m a ha
  obtain ⟨hby, hbm, hbd1, hbd2⟩ := mem_monthDays y m b hb
  have hpad : pad2 a.d = pad2 b.d := by
    unfold fmtYmd at h
    rw [hay, ham, hby, hbm] at h
    exact strAppend_left_cancel _ _ _ h
  have hle := daysInMonth_le y m
  have hd : a.d = b.d := pad2_inj31 a.d (by omega) b.d (by omega) hpad
  cases a; cases b
  simp_all

theorem nodup_monthDays (y m : Nat) : (monthDays y m).Nodup := by
  unfold monthDays
  refine List.Nodup.map_on ?_ (List.nodup_range _)
  intro i _ j _ hij
  simpa using hij

theorem nodup_dayKeys (y m : Nat) : ((monthDays y m).map fmtYmd).Nodup :=
  List.Nodup.map_on (fun a ha b hb hf => fmtYmd_inj_month y m a b ha hb hf)
    (nodup_monthDays y m)

theorem keysA_zeroT (days : List Ymd) : keysA (zeroT days) = days.map fmtYmd := by
  unfold zeroT keysA
  rw [List.map_map]
  rfl

theorem getA_zeroT (days : List Ymd) (d : Ymd) (hd : d ∈ days) :
    getA (zeroT days) (fmtYmd d) = some 0 := by
  induction days with
  | nil => cases hd
  | cons d0 rest ih =>
    unfold zeroT at *
    simp only [List.map_cons]
    by_cases h : fmtYmd d = fmtYmd d0
    · simp [getA, h]
    · have hdr : d ∈ rest := by
        rcases hd with _ | hd2
        · exact absurd rfl h
        · assumption
      simp [getA, h, ih hdr]

theorem getA_zeroT_val (days : List Ymd) (k : String) (v : Int)
    (h : getA (zeroT days) k = some v) : v = 0 := by
  induction days with
  | nil => simp [zeroT, getA] at h
  | cons d0 rest ih =>
    unfold zeroT at h ih
    simp only [List.map_cons] at h
    by_cases h2 : k = fmtYmd d0
    · simp [getA, h2] at h
      omega
    · simp [getA, h2] at h
      exact ih h

theorem lastA_mapped {β : Type} (days : List Ymd) (f : Ymd → β)
    (hnd : (days.map fmtYmd).Nodup) (d : Ymd) (hd : d ∈ days) :
    lastA (days.map (fun x => (fmtYmd x, f x))) (fmtYmd d) = some (f d) := by
  induction days with
  | nil => cases hd
  | cons d0 rest ih =>
    simp only [List.map_cons, List.nodup_cons] at hnd
    rcases List.mem_cons.mp hd with rfl | hdr
    · have hnone : lastA (rest.map (fun x => (fmtYmd x, f x))) (fmtYmd d) = none := by
        apply lastA_eq_none
        have : (rest.map (fun x => (fmtYmd x, f x))).map Prod.fst = rest.map fmtYmd := by
          rw [List.map_map]; rfl
        rw [this]
        exact hnd.1
      simp [lastA, hnone]
    · have := ih hnd.2 hdr
      simp [lastA, this]

/-- The joined fan-out table holds, for each day of the month, exactly the
count its settled promise contributed. -/
theorem getA_p3join (y m : Nat) (o : Ymd → DayRes) (d : Ymd)
    (hd : d ∈ monthDays y m) :
    getA (p3join (zeroT (monthDays y m)) (monthDays y m) o) (fmtYmd d) =
      some (dayCount (o d)) := by
  unfold p3join
  rw [getA_foldl_setA]
  rw [lastA_mapped (monthDays y m) (fun x => dayCount (o x)) (nodup_dayKeys y m) d hd]

/-- The joined fan-out table has exactly the month's day keys. -/
theorem keysA_p3join (days : List Ymd) (o : Ymd → DayRes) :
    keysA (p3join (zeroT days) days o) = days.map fmtYmd := by
  unfold p3join
  rw [keysA_foldl_setA, keysA_zeroT]
  intro p hp
  rw [keysA_zeroT]
  simp only [List.mem_map] at hp
  obtain ⟨x, hx, rfl⟩ := hp
  exact List.mem_map_of_mem _ hx

/-- The batch-strategy table has exactly the month's day keys, whatever the
response carried. -/
theorem keysA_p2apply (days : List Ymd) (r : BResp) :
    keysA (p2apply (zeroT days) r) = days.map fmtYmd := by
  unfold p2apply
  rcases r.bcounts with _ | cm
  · rcases r.details with _ | l
    · exact keysA_zeroT days
    · rw [keysA_ifold, keysA_zeroT]
  · rw [keysA_gfold, keysA_zeroT]

/-- Every value of the batch-strategy table is non-negative provided the
backend count mapping carried only non-negative values (the details grouping
and the untouched zeros are non-negative unconditionally). -/
theorem p2apply_nonneg (days : List Ymd) (r : BResp)
    (hc : ∀ p ∈ r.bcounts.getD [], (0 : Int) ≤ p.2) (k : String) (v : Int)
    (h : getA (p2apply (zeroT days) r) k = some v) : 0 ≤ v := by
  unfold p2apply at h
  rcases hb : r.bcounts with _ | cm
  · rw [hb] at h
    rcases hdet : r.details with _ | l
    · rw [hdet] at h
      have := getA_zeroT_val days k v h
      omega
    · rw [hdet] at h
      rw [getA_ifold] at h
      rcases h2 : getA (zeroT days) k with _ | v0
      · rw [h2] at h; cases h
      · rw [h2, Option.map_some'] at h
        injection h with h
        have := getA_zeroT_val days k v0 h2
        omega
  · rw [hb] at h
    rw [getA_gfold] at h
    rcases h2 : lastA ((cm.filter (fun p => (getA (zeroT days) p.1).isSome))) k with _ | v2
    · rw [h2] at h
      have := getA_zeroT_val days k v h
      omega
    · rw [h2] at h
      simp only [Option.some.injEq] at h
      subst h
      have hmem := lastA_mem _ k v2 h2
      have hmem2 := List.mem_of_mem_filter hmem
      exact hc (k, v2) (by rw [hb]; simpa using hmem2)

/-! ### Claim theorems -/

/-- C3: For every month M with a cached entry whose age is strictly less than
the TTL, a second request for M publishes a count table identical to the
cached one and issues no remote call.  This holds in the batch variant for any
fresh entry, and in the full fan-out variant for any fresh nonempty entry
(every entry the code commits holds one key per day of its month, hence is
nonempty).  In both variants the whole run is the single publish of the cached
table: no remote event, no cache write, cache and loading flag unchanged. -/
theorem claim_C3 (st : St) (date : Ymd) (resp : Except Unit BResp) (o : Ymd → DayRes)
    (kj : String) (nowChk nowC ttl : Nat) (e : Entry)
    (hget : getA st.cache (fmtYm date) = some e)
    (hfresh : nowChk - e.timestamp < ttl)
    (hne : 0 < e.counts.length) :
    p2fetch st date resp nowChk nowC ttl =
      ({ st with published := e.counts }, [Ev.publishT e.counts]) ∧
    p3fetch st date o kj nowChk nowC ttl =
      ({ st with published := e.counts }, [Ev.publishT e.counts]) := by
  constructor
  · simp only [p2fetch]
    rw [hget]
    simp [hfresh]
  · simp only [p3fetch]
    rw [hget]
    simp [hfresh, hne]

/-- Witness for C3 at a concrete fresh cache entry for June 2025. -/
theorem claim_C3_witness :
    p2fetch ⟨[("2025-06", ⟨[("2025-06-01", 2)], 100⟩)], [], false⟩ ⟨2025, 6, 15⟩
        (Except.error ()) 200 300 CACHE_DURATION =
      ({ cache := [("2025-06", ⟨[("2025-06-01", 2)], 100⟩)],
         published := [("2025-06-01", 2)], loading := false },
       [Ev.publishT [("2025-06-01", 2)]]) ∧
    p3fetch ⟨[("2025-06", ⟨[("2025-06-01", 2)], 100⟩)], [], false⟩ ⟨2025, 6, 15⟩
        (fun _ => DayRes.ok 0) "2025-06" 200 300 CACHE_DURATION =
      ({ cache := [("2025-06", ⟨[("2025-06-01", 2)], 100⟩)],
         published := [("2025-06-01", 2)], loading := false },
       [Ev.publishT [("2025-06-01", 2)]]) :=
  claim_C3 ⟨[("2025-06", ⟨[("2025-06-01", 2)], 100⟩)], [], false⟩ ⟨2025, 6, 15⟩
    (Except.error ()) (fun _ => DayRes.ok 0) "2025-06" 200 300 CACHE_DURATION
    ⟨[("2025-06-01", 2)], 100⟩ (by decide) (by decide) (by decide)

/-- C10: when the selected date is null, the useReports effect publishes the
empty report list, issues no remote call, and leaves the previous error value
and loading flag untouched, whatever the remote would have answered. -/
theorem claim_C10 (st : RSt) (resp : Except String (Option (List ApiDetail))) :
    useReportsStep st none resp = ({ st with reports := [] }, []) := rfl

/-! ### Trace-counting helpers -/

theorem countP_calls_cacheW (days : List Ymd) :
    (days.map (fun d => Ev.remote (dayPfx d))).countP isCacheWEv = 0 := by
  rw [List.countP_eq_zero]
  intro a ha
  simp only [List.mem_map] at ha
  obtain ⟨x, _, rfl⟩ := ha
  simp [isCacheWEv]

theorem countP_calls_publish (days : List Ymd) :
    (days.map (fun d => Ev.remote (dayPfx d))).countP isPublishEv = 0 := by
  rw [List.countP_eq_zero]
  intro a ha
  simp only [List.mem_map] at ha
  obtain ⟨x, _, rfl⟩ := ha
  simp [isPublishEv]

theorem countP_calls_remote (days : List Ymd) :
    (days.map (fun d => Ev.remote (dayPfx d))).countP isRemoteEv = days.length := by
  induction days with
  | nil => rfl
  | cons d rest ih => simp [List.countP_cons, isRemoteEv, ih]

theorem any_aborted_false (days : List Ymd) (o : Ymd → DayRes)
    (h : ∀ d ∈ days, o d ≠ DayRes.aborted) :
    (days.any (fun d => decide (o d = DayRes.aborted))) = false := by
  apply List.any_eq_false.mpr
  intro d hd
  simp [h d hd]

/-- The committed (non-superseded, abort-free, cache-missing) run of the
fan-out fetch, written out in full: publish zeros, one request per day, then
the unconditional cache write and the guarded publish of the joined table. -/
theorem p3fetch_commit (st : St) (date : Ymd) (o : Ymd → DayRes) (nowChk nowC ttl : Nat)
    (hmiss : getA st.cache (fmtYm date) = none)
    (hnoab : ∀ d ∈ monthDays date.y date.m, o d ≠ DayRes.aborted) :
    p3fetch st date o (fmtYm date) nowChk nowC ttl =
      ({ cache := setA st.cache (fmtYm date)
           ⟨p3join (zeroT (monthDays date.y date.m)) (monthDays date.y date.m) o, nowC⟩,
         published := p3join (zeroT (monthDays date.y date.m)) (monthDays date.y date.m) o,
         loading := false },
       Ev.publishT (zeroT (monthDays date.y date.m)) ::
         (monthDays date.y date.m).map (fun d => Ev.remote (dayPfx d)) ++
         [Ev.cacheW (fmtYm date)
            (p3join (zeroT (monthDays date.y date.m)) (monthDays date.y date.m) o),
          Ev.publishT (p3join (zeroT (monthDays date.y date.m)) (monthDays date.y date.m) o)]) := by
  simp only [p3fetch]
  rw [hmiss, any_aborted_false _ _ hnoab]
  simp

/-- The superseded, abort-free, cache-missing run of the fan-out fetch: the
joined table is still written into the cache, but it is never published (the
last published table stays the provisional zeros) and loading stays true. -/
theorem p3fetch_superseded (st : St) (date : Ymd) (o : Ymd → DayRes) (kj : String)
    (nowChk nowC ttl : Nat)
    (hmiss : getA st.cache (fmtYm date) = none)
    (hkj : kj ≠ fmtYm date)
    (hnoab : ∀ d ∈ monthDays date.y date.m, o d ≠ DayRes.aborted) :
    p3fetch st date o kj nowChk nowC ttl =
      ({ cache := setA st.cache (fmtYm date)
           ⟨p3join (zeroT (monthDays date.y date.m)) (monthDays date.y date.m) o, nowC⟩,
         published := zeroT (monthDays date.y date.m),
         loading := true },
       Ev.publishT (zeroT (monthDays date.y date.m)) ::
         (monthDays date.y date.m).map (fun d => Ev.remote (dayPfx d)) ++
         [Ev.cacheW (fmtYm date)
            (p3join (zeroT (monthDays date.y date.m)) (monthDays date.y date.m) o)]) := by
  simp only [p3fetch]
  rw [hmiss, any_aborted_false _ _ hnoab]
  simp [hkj]

/-- The cache-missing, successful run of the batch fetch, written out in full:
the month listing, the cache write, and the publish of the applied table (no
provisional publish of the zeros precedes the remote call). -/
theorem p2fetch_ok (st : St) (date : Ymd) (r : BResp) (nowChk nowC ttl : Nat)
    (hmiss : getA st.cache (fmtYm date) = none) :
    p2fetch st date (Except.ok r) nowChk nowC ttl =
      ({ cache := setA st.cache (fmtYm date)
           ⟨p2apply (zeroT (monthDays date.y date.m)) r, nowC⟩,
         published := p2apply (zeroT (monthDays date.y date.m)) r,
         loading := false },
       [Ev.remote (monthPfx date),
        Ev.cacheW (fmtYm date) (p2apply (zeroT (monthDays date.y date.m)) r),
        Ev.publishT (p2apply (zeroT (monthDays date.y date.m)) r)]) := by
  simp only [p2fetch]
  rw [hmiss]

/-- Same as p2fetch_ok but from a stale entry rather than an absent one. -/
theorem p2fetch_ok_stale (st : St) (date : Ymd) (r : BResp) (nowChk nowC ttl : Nat) (e : Entry)
    (hget : getA st.cache (fmtYm date) = some e)
    (hstale : ¬ (nowChk - e.timestamp < ttl)) :
    p2fetch st date (Except.ok r) nowChk nowC ttl =
      ({ cache := setA st.cache (fmtYm date)
           ⟨p2apply (zeroT (monthDays date.y date.m)) r, nowC⟩,
         published := p2apply (zeroT (monthDays date.y date.m)) r,
         loading := false },
       [Ev.remote (monthPfx date),
        Ev.cacheW (fmtYm date) (p2apply (zeroT (monthDays date.y date.m)) r),
        Ev.publishT (p2apply (zeroT (monthDays date.y date.m)) r)]) := by
  simp only [p2fetch]
  rw [hget]
  simp [hstale]

/-- Same as p3fetch_commit but from a stale entry rather than an absent one. -/
theorem p3fetch_commit_stale (st : St) (date : Ymd) (o : Ymd → DayRes) (nowChk nowC ttl : Nat)
    (e : Entry)
    (hget : getA st.cache (fmtYm date) = some e)
    (hstale : ¬ (nowChk - e.timestamp < ttl))
    (hnoab : ∀ d ∈ monthDays date.y date.m, o d ≠ DayRes.aborted) :
    p3fetch st date o (fmtYm date) nowChk nowC ttl =
      ({ cache := setA st.cache (fmtYm date)
           ⟨p3join (zeroT (monthDays date.y date.m)) (monthDays date.y date.m) o, nowC⟩,
         published := p3join (zeroT (monthDays date.y date.m)) (monthDays date.y date.m) o,
         loading := false },
       Ev.publishT (zeroT (monthDays date.y date.m)) ::
         (monthDays date.y date.m).map (fun d => Ev.remote (dayPfx d)) ++
         [Ev.cacheW (fmtYm date)
            (p3join (zeroT (monthDays date.y date.m)) (monthDays date.y date.m) o),
          Ev.publishT (p3join (zeroT (monthDays date.y date.m)) (monthDays date.y date.m) o)]) := by
  simp only [p3fetch]
  rw [hget, any_aborted_false _ _ hnoab]
  have hcond : ¬ (nowChk - e.timestamp < ttl ∧ 0 < e.counts.length) := fun hc => hstale hc.1
  simp [hcond]

/-- C7: An entry is treated as fresh exactly when its age, now minus the
stored timestamp, is strictly below the configured TTL (an absent entry is
never fresh); and a lookup finding a stale entry is a miss that triggers one
new aggregation which overwrites the entry with a table stamped at the commit
time.  In the batch variant the single aggregation issues exactly one remote
call; in the fan-out variant (which commits even under total per-day failure)
it performs exactly one cache commit. -/
theorem claim_C7 (cache : List (String × Entry)) (mk : String) (now ttl2 : Nat)
    (st : St) (date : Ymd) (r : BResp) (o : Ymd → DayRes) (nowChk nowC ttl : Nat) (e : Entry)
    (hget : getA st.cache (fmtYm date) = some e)
    (hstale : ¬ (nowChk - e.timestamp < ttl))
    (hnoab : ∀ d ∈ monthDays date.y date.m, o d ≠ DayRes.aborted) :
    (isCacheValid cache mk now ttl2 = true ↔
       ∃ e2, getA cache mk = some e2 ∧ now - e2.timestamp < ttl2) ∧
    (p2fetch st date (Except.ok r) nowChk nowC ttl).2.countP isRemoteEv = 1 ∧
    getA (p2fetch st date (Except.ok r) nowChk nowC ttl).1.cache (fmtYm date) =
      some ⟨p2apply (zeroT (monthDays date.y date.m)) r, nowC⟩ ∧
    getA (p3fetch st date o (fmtYm date) nowChk nowC ttl).1.cache (fmtYm date) =
      some ⟨p3join (zeroT (monthDays date.y date.m)) (monthDays date.y date.m) o, nowC⟩ ∧
    (p3fetch st date o (fmtYm date) nowChk nowC ttl).2.countP isCacheWEv = 1 := by
  refine ⟨?_, ?_, ?_, ?_, ?_⟩
  · unfold isCacheValid
    rcases h : getA cache mk with _ | e2
    · simp
    · simp
  · rw [p2fetch_ok_stale st date r nowChk nowC ttl e hget hstale]
    simp [List.countP_cons, isRemoteEv]
  · rw [p2fetch_ok_stale st date r nowChk nowC ttl e hget hstale]
    exact getA_setA_self _ _ _
  · rw [p3fetch_commit_stale st date o nowChk nowC ttl e hget hstale hnoab]
    exact getA_setA_self _ _ _
  · rw [p3fetch_commit_stale st date o nowChk nowC ttl e hget hstale hnoab]
    simp only [List.countP_cons, List.countP_append, countP_calls_cacheW]
    simp [isCacheWEv]

/-- Witness for C7: an entry computed at time 0, read back when its age equals
the TTL exactly, is stale; the rerun issues one batch call and overwrites it. -/
theorem claim_C7_witness :
    (isCacheValid [("2025-06", ⟨[("2025-06-01", 1)], 0⟩)] "2025-06" CACHE_DURATION CACHE_DURATION = true ↔
       ∃ e2, getA [("2025-06", (⟨[("2025-06-01", 1)], 0⟩ : Entry))] "2025-06" = some e2 ∧
         CACHE_DURATION - e2.timestamp < CACHE_DURATION) ∧
    (p2fetch ⟨[("2025-06", ⟨[("2025-06-01", 1)], 0⟩)], [], false⟩ ⟨2025, 6, 15⟩
        (Except.ok ⟨none, none⟩) CACHE_DURATION (CACHE_DURATION + 5) CACHE_DURATION).2.countP isRemoteEv = 1 ∧
    getA (p2fetch ⟨[("2025-06", ⟨[("2025-06-01", 1)], 0⟩)], [], false⟩ ⟨2025, 6, 15⟩
        (Except.ok ⟨none, none⟩) CACHE_DURATION (CACHE_DURATION + 5) CACHE_DURATION).1.cache "2025-06" =
      some ⟨p2apply (zeroT (monthDays 2025 6)) ⟨none, none⟩, CACHE_DURATION + 5⟩ ∧
    getA (p3fetch ⟨[("2025-06", ⟨[("2025-06-01", 1)], 0⟩)], [], false⟩ ⟨2025, 6, 15⟩
        (fun _ => DayRes.ok 1) "2025-06" CACHE_DURATION (CACHE_DURATION + 5) CACHE_DURATION).1.cache "2025-06" =
      some ⟨p3join (zeroT (monthDays 2025 6)) (monthDays 2025 6) (fun _ => DayRes.ok 1), CACHE_DURATION + 5⟩ ∧
    (p3fetch ⟨[("2025-06", ⟨[("2025-06-01", 1)], 0⟩)], [], false⟩ ⟨2025, 6, 15⟩
        (fun _ => DayRes.ok 1) "2025-06" CACHE_DURATION (CACHE_DURATION + 5) CACHE_DURATION).2.countP isCacheWEv = 1 :=
  claim_C7 [("2025-06", ⟨[("2025-06-01", 1)], 0⟩)] "2025-06" CACHE_DURATION CACHE_DURATION
    ⟨[("2025-06", ⟨[("2025-06-01", 1)], 0⟩)], [], false⟩ ⟨2025, 6, 15⟩ ⟨none, none⟩
    (fun _ => DayRes.ok 1) CACHE_DURATION (CACHE_DURATION + 5) CACHE_DURATION
    ⟨[("2025-06-01", 1)], 0⟩ (by decide) (by decide) (by decide)

/-- C4: In the fan-out variant, when exactly one per-day request fails with a
non-abort error and every other day resolves, the failure is absorbed by the
per-day catch: the failing day ends at 0, every other day carries the count
its request returned, the attempt still commits (one cache write and the final
publish both happen), and the join returns normally. -/
theorem claim_C4 (st : St) (date : Ymd) (o : Ymd → DayRes) (nowChk nowC ttl : Nat)
    (dBad : Ymd) (cnt : Ymd → Nat)
    (hmiss : getA st.cache (fmtYm date) = none)
    (hbad : dBad ∈ monthDays date.y date.m)
    (hfail : o dBad = DayRes.err)
    (hok : ∀ d ∈ monthDays date.y date.m, d ≠ dBad → o d = DayRes.ok (cnt d)) :
    getA (p3fetch st date o (fmtYm date) nowChk nowC ttl).1.published (fmtYmd dBad) = some 0 ∧
    (∀ d ∈ monthDays date.y date.m, d ≠ dBad →
       getA (p3fetch st date o (fmtYm date) nowChk nowC ttl).1.published (fmtYmd d) =
         some ((cnt d : Int))) ∧
    getA (p3fetch st date o (fmtYm date) nowChk nowC ttl).1.cache (fmtYm date) =
      some ⟨(p3fetch st date o (fmtYm date) nowChk nowC ttl).1.published, nowC⟩ ∧
    (p3fetch st date o (fmtYm date) nowChk nowC ttl).2.countP isCacheWEv = 1 ∧
    (p3fetch st date o (fmtYm date) nowChk nowC ttl).2.countP isPublishEv = 2 := by
  have hnoab : ∀ d ∈ monthDays date.y date.m, o d ≠ DayRes.aborted := by
    intro d hd
    by_cases h2 : d = dBad
    · rw [h2, hfail]; intro hc; cases hc
    · rw [hok d hd h2]; intro hc; cases hc
  rw [p3fetch_commit st date o nowChk nowC ttl hmiss hnoab]
  refine ⟨?_, ?_, ?_, ?_, ?_⟩
  · rw [getA_p3join date.y date.m o dBad hbad, hfail]
    rfl
  · intro d hd hne
    rw [getA_p3join date.y date.m o d hd, hok d hd hne]
    rfl
  · exact getA_setA_self _ _ _
  · simp only [List.countP_cons, List.countP_append, countP_calls_cacheW]
    simp [isCacheWEv]
  · simp only [List.countP_cons, List.countP_append, countP_calls_publish]
    simp [isPublishEv]

/-- Witness for C4: June 2025, the request for the 29th fails, all others
return 7 reports; the 29th publishes 0 and the 1st publishes 7. -/
theorem claim_C4_witness :
    getA (p3fetch ⟨[], [], false⟩ ⟨2025, 6, 15⟩
        (fun d => if d = ⟨2025, 6, 29⟩ then DayRes.err else DayRes.ok 7) "2025-06"
        0 5 CACHE_DURATION).1.published (fmtYmd ⟨2025, 6, 29⟩) = some 0 ∧
    getA (p3fetch ⟨[], [], false⟩ ⟨2025, 6, 15⟩
        (fun d => if d = ⟨2025, 6, 29⟩ then DayRes.err else DayRes.ok 7) "2025-06"
        0 5 CACHE_DURATION).1.published (fmtYmd ⟨2025, 6, 1⟩) = some 7 := by
  have h := claim_C4 ⟨[], [], false⟩ ⟨2025, 6, 15⟩
    (fun d => if d = ⟨2025, 6, 29⟩ then DayRes.err else DayRes.ok 7) 0 5 CACHE_DURATION
    ⟨2025, 6, 29⟩ (fun _ => 7) (by decide) (by decide) (by decide)
    (by decide)
  refine ⟨h.1, ?_⟩
  have h2 := h.2.1 ⟨2025, 6, 1⟩ (by decide) (by decide)
  simpa using h2

/-- C1, counterexample: an aggregation started for June 2025 whose commit
point finds the controller already switched to July 2025 (keyAtJoin differs
from the attempt's month key) still leaves an entry for June in the cache
store, although the cache held nothing for June before: the claimed "no cache
write after the switch" is false for the fan-out variant, whose cache.set is
executed before the current-month guard. -/
theorem claim_C1_cex :
    getA (p3fetch ⟨[], [], false⟩ ⟨2025, 6, 15⟩ (fun _ => DayRes.ok 1) "2025-07"
        0 5 CACHE_DURATION).1.cache "2025-06" ≠ none := by decide

/-- C1, amended: in the fan-out variant, a superseded attempt (controller
switched to a different month before the join) never publishes its completed
result -- the only publish of the run is the provisional zero table, which also
remains the published table afterwards -- but its completed result IS written
into the cache store under the attempt's month, stamped at the commit time
(the cache.set precedes the current-month guard).  In the trailing-window
variant not even the publish is guarded. -/
theorem claim_C1_amended (st : St) (date : Ymd) (o : Ymd → DayRes) (kj : String)
    (nowChk nowC ttl : Nat)
    (hmiss : getA st.cache (fmtYm date) = none)
    (hkj : kj ≠ fmtYm date)
    (hnoab : ∀ d ∈ monthDays date.y date.m, o d ≠ DayRes.aborted) :
    getA (p3fetch st date o kj nowChk nowC ttl).1.cache (fmtYm date) =
      some ⟨p3join (zeroT (monthDays date.y date.m)) (monthDays date.y date.m) o, nowC⟩ ∧
    (p3fetch st date o kj nowChk nowC ttl).1.published = zeroT (monthDays date.y date.m) ∧
    (p3fetch st date o kj nowChk nowC ttl).2.countP isPublishEv = 1 := by
  rw [p3fetch_superseded st date o kj nowChk nowC ttl hmiss hkj hnoab]
  refine ⟨getA_setA_self _ _ _, rfl, ?_⟩
  simp only [List.countP_cons, List.countP_append, countP_calls_publish]
  simp [isPublishEv]

/-- Witness for C1 (amended): the June 2025 attempt superseded by July. -/
theorem claim_C1_witness :
    getA (p3fetch ⟨[], [], false⟩ ⟨2025, 6, 15⟩ (fun _ => DayRes.ok 1) "2025-07"
        0 5 CACHE_DURATION).1.cache (fmtYm ⟨2025, 6, 15⟩) =
      some ⟨p3join (zeroT (monthDays 2025 6)) (monthDays 2025 6) (fun _ => DayRes.ok 1), 5⟩ ∧
    (p3fetch ⟨[], [], false⟩ ⟨2025, 6, 15⟩ (fun _ => DayRes.ok 1) "2025-07"
        0 5 CACHE_DURATION).1.published = zeroT (monthDays 2025 6) ∧
    (p3fetch ⟨[], [], false⟩ ⟨2025, 6, 15⟩ (fun _ => DayRes.ok 1) "2025-07"
        0 5 CACHE_DURATION).2.countP isPublishEv = 1 :=
  claim_C1_amended ⟨[], [], false⟩ ⟨2025, 6, 15⟩ (fun _ => DayRes.ok 1) "2025-07"
    0 5 CACHE_DURATION (by decide) (by decide) (by decide)

/-- C2, counterexample: with a batch response whose precomputed per-day
mapping carries the value -1 for a day of the month, the committed table
publishes -1 for that day: values copied from the backend are not forced to be
non-negative, so "every value is a non-negative integer" fails for arbitrary
responses in the batch variant. -/
theorem claim_C2_cex :
    getA (p2fetch ⟨[], [], false⟩ ⟨2025, 6, 15⟩
        (Except.ok ⟨some [("2025-06-05", -1)], none⟩) 0 5 CACHE_DURATION).1.published
      "2025-06-05" = some (-1) ∧ ((-1 : Int) < 0) := by
  constructor
  · decide
  · decide

/-- C2, amended: a completed, non-superseded aggregation always publishes and
caches a table whose key list is exactly the month's days (no day missing, no
foreign day), in both variants; every value is non-negative in the fan-out
variant unconditionally, and in the batch variant provided the backend count
mapping carried only non-negative values (the raw-details grouping is
non-negative unconditionally). -/
theorem claim_C2_amended (st : St) (date : Ymd) (r : BResp) (o : Ymd → DayRes)
    (nowChk nowC ttl : Nat) (d : Ymd)
    (hmiss : getA st.cache (fmtYm date) = none)
    (hd : d ∈ monthDays date.y date.m) :
    keysA (p2fetch st date (Except.ok r) nowChk nowC ttl).1.published =
      (monthDays date.y date.m).map fmtYmd ∧
    getA (p2fetch st date (Except.ok r) nowChk nowC ttl).1.cache (fmtYm date) =
      some ⟨(p2fetch st date (Except.ok r) nowChk nowC ttl).1.published, nowC⟩ ∧
    ((∀ p ∈ r.bcounts.getD [], (0 : Int) ≤ p.2) →
       ∀ v, getA (p2fetch st date (Except.ok r) nowChk nowC ttl).1.published (fmtYmd d) =
         some v → 0 ≤ v) ∧
    ((∀ x ∈ monthDays date.y date.m, o x ≠ DayRes.aborted) →
       keysA (p3fetch st date o (fmtYm date) nowChk nowC ttl).1.published =
         (monthDays date.y date.m).map fmtYmd ∧
       getA (p3fetch st date o (fmtYm date) nowChk nowC ttl).1.published (fmtYmd d) =
         some (dayCount (o d)) ∧
       0 ≤ dayCount (o d) ∧
       getA (p3fetch st date o (fmtYm date) nowChk nowC ttl).1.cache (fmtYm date) =
         some ⟨(p3fetch st date o (fmtYm date) nowChk nowC ttl).1.published, nowC⟩) := by
  rw [p2fetch_ok st date r nowChk nowC ttl hmiss]
  refine ⟨keysA_p2apply _ r, getA_setA_self _ _ _, ?_, ?_⟩
  · intro hc v hv
    exact p2apply_nonneg (monthDays date.y date.m) r hc (fmtYmd d) v hv
  · intro hnoab
    rw [p3fetch_commit st date o nowChk nowC ttl hmiss hnoab]
    refine ⟨keysA_p3join _ o, getA_p3join date.y date.m o d hd, ?_, getA_setA_self _ _ _⟩
    unfold dayCount
    rcases o d with n | _ | _ <;> simp

/-- Witness for C2 (amended) at June 2025 with a well-behaved batch response
and an all-resolving fan-out oracle. -/
theorem claim_C2_witness :
    keysA (p2fetch ⟨[], [], false⟩ ⟨2025, 6, 15⟩
        (Except.ok ⟨some [("2025-06-05", 4)], none⟩) 0 5 CACHE_DURATION).1.published =
      (monthDays 2025 6).map fmtYmd ∧
    getA (p3fetch ⟨[], [], false⟩ ⟨2025, 6, 15⟩ (fun _ => DayRes.ok 3) (fmtYm ⟨2025, 6, 15⟩)
        0 5 CACHE_DURATION).1.published (fmtYmd ⟨2025, 6, 3⟩) =
      some (dayCount (DayRes.ok 3)) ∧
    0 ≤ dayCount (DayRes.ok 3) := by
  have h := claim_C2_amended ⟨[], [], false⟩ ⟨2025, 6, 15⟩
    ⟨some [("2025-06-05", 4)], none⟩ (fun _ => DayRes.ok 3) 0 5 CACHE_DURATION
    ⟨2025, 6, 3⟩ (by decide) (by decide)
  have h4 := h.2.2.2 (by decide)
  exact ⟨h.1, h4.2.1, h4.2.2.1⟩

/-- C5, counterexample: in the batch variant a total failure of the month
listing publishes nothing at all -- the previously published table (here a
table of another month) stays visible and is not the all-zero table of the
requested month -- so "worst case it completes with, and publishes, the
all-zero count table" is false for that variant (though no error escapes). -/
theorem claim_C5_cex :
    (p2fetch ⟨[], [("2025-05-01", 7)], false⟩ ⟨2025, 6, 15⟩ (Except.error ())
        0 5 CACHE_DURATION).1.published = [("2025-05-01", 7)] ∧
    (p2fetch ⟨[], [("2025-05-01", 7)], false⟩ ⟨2025, 6, 15⟩ (Except.error ())
        0 5 CACHE_DURATION).2.countP isPublishEv = 0 ∧
    (p2fetch ⟨[], [("2025-05-01", 7)], false⟩ ⟨2025, 6, 15⟩ (Except.error ())
        0 5 CACHE_DURATION).1.published ≠ zeroT (monthDays 2025 6) := by
  refine ⟨by decide, by decide, by decide⟩

/-- C5, amended: neither variant propagates an error to its caller (every
outcome is the normal return written below).  The fan-out variant degrades as
claimed: if every per-day request fails (non-abort), it still commits and
publishes the table carrying 0 for every day of the month.  The batch variant
instead swallows a total batch failure without publishing anything: the
published table and the cache are left exactly as they were, and only loading
is reset. -/
theorem claim_C5_amended (st : St) (date : Ymd) (o : Ymd → DayRes) (nowChk nowC ttl : Nat)
    (hmiss : getA st.cache (fmtYm date) = none)
    (hallfail : ∀ d ∈ monthDays date.y date.m, o d = DayRes.err) :
    (∀ d ∈ monthDays date.y date.m,
       getA (p3fetch st date o (fmtYm date) nowChk nowC ttl).1.published (fmtYmd d) = some 0) ∧
    getA (p3fetch st date o (fmtYm date) nowChk nowC ttl).1.cache (fmtYm date) =
      some ⟨(p3fetch st date o (fmtYm date) nowChk nowC ttl).1.published, nowC⟩ ∧
    (p3fetch st date o (fmtYm date) nowChk nowC ttl).2.countP isPublishEv = 2 ∧
    p2fetch st date (Except.error ()) nowChk nowC ttl =
      ({ st with loading := false }, [Ev.remote (monthPfx date)]) := by
  have hnoab : ∀ d ∈ monthDays date.y date.m, o d ≠ DayRes.aborted := by
    intro d hd
    rw [hallfail d hd]
    intro hc
    cases hc
  rw [p3fetch_commit st date o nowChk nowC ttl hmiss hnoab]
  refine ⟨?_, getA_setA_self _ _ _, ?_, ?_⟩
  · intro d hd
    rw [getA_p3join date.y date.m o d hd, hallfail d hd]
    rfl
  · simp only [List.countP_cons, List.countP_append, countP_calls_publish]
    simp [isPublishEv]
  · simp only [p2fetch]
    rw [hmiss]

/-- Witness for C5 (amended): total per-day failure over June 2025 still
publishes zero for the 29th and commits; the batch-variant failure run leaves
the state except for the loading flag. -/
theorem claim_C5_witness :
    getA (p3fetch ⟨[], [], false⟩ ⟨2025, 6, 15⟩ (fun _ => DayRes.err) (fmtYm ⟨2025, 6, 15⟩)
        0 5 CACHE_DURATION).1.published (fmtYmd ⟨2025, 6, 29⟩) = some 0 ∧
    p2fetch ⟨[], [], false⟩ ⟨2025, 6, 15⟩ (Except.error ()) 0 5 CACHE_DURATION =
      ({ cache := [], published := [], loading := false }, [Ev.remote (monthPfx ⟨2025, 6, 15⟩)]) := by
  have h := claim_C5_amended ⟨[], [], false⟩ ⟨2025, 6, 15⟩ (fun _ => DayRes.err)
    0 5 CACHE_DURATION (by decide) (by decide)
  exact ⟨h.1 ⟨2025, 6, 29⟩ (by decide), h.2.2.2⟩

/-- C6, counterexample: in the batch variant a cache-missing aggregation's
first observable event is the remote month listing itself -- no publish of the
zero-filled table precedes any remote request -- so "the zero-filled table is
published immediately, before any remote request is awaited" fails there. -/
theorem claim_C6_cex :
    (p2fetch ⟨[], [], false⟩ ⟨2025, 6, 15⟩ (Except.ok ⟨none, none⟩)
        0 5 CACHE_DURATION).2.head? = some (Ev.remote "2025/06/") := by decide

/-- C6, amended: in the fan-out variant every cache-missing run's trace starts
with the publish of the zero-filled table (complete: every day of the month is
present at 0), followed by the per-day remote requests; in particular nothing
has been written to the cache store when that publish happens.  The batch
variant never publishes the zero table: its first event is the remote call. -/
theorem claim_C6_amended (st : St) (date : Ymd) (o : Ymd → DayRes) (kj : String)
    (nowChk nowC ttl : Nat) (d : Ymd)
    (hmiss : getA st.cache (fmtYm date) = none)
    (hd : d ∈ monthDays date.y date.m) :
    ∃ tail,
      (p3fetch st date o kj nowChk nowC ttl).2 =
        Ev.publishT (zeroT (monthDays date.y date.m)) ::
          ((monthDays date.y date.m).map (fun x => Ev.remote (dayPfx x)) ++ tail) ∧
      getA (zeroT (monthDays date.y date.m)) (fmtYmd d) = some 0 := by
  simp only [p3fetch]
  rw [hmiss]
  rcases hab : (monthDays date.y date.m).any (fun x => decide (o x = DayRes.aborted)) with _ | _
  · by_cases hkj : kj = fmtYm date
    · refine ⟨[Ev.cacheW (fmtYm date)
          (p3join (zeroT (monthDays date.y date.m)) (monthDays date.y date.m) o),
        Ev.publishT (p3join (zeroT (monthDays date.y date.m)) (monthDays date.y date.m) o)],
        ?_, getA_zeroT _ d hd⟩
      simp [hab, hkj]
    · refine ⟨[Ev.cacheW (fmtYm date)
          (p3join (zeroT (monthDays date.y date.m)) (monthDays date.y date.m) o)],
        ?_, getA_zeroT _ d hd⟩
      simp [hab, hkj]
  · refine ⟨[], ?_, getA_zeroT _ d hd⟩
    simp [hab]

/-- Witness for C6 (amended) at June 2025. -/
theorem claim_C6_witness :
    ∃ tail,
      (p3fetch ⟨[], [], false⟩ ⟨2025, 6, 15⟩ (fun _ => DayRes.ok 2) "2025-06"
          0 5 CACHE_DURATION).2 =
        Ev.publishT (zeroT (monthDays 2025 6)) ::
          ((monthDays 2025 6).map (fun x => Ev.remote (dayPfx x)) ++ tail) ∧
      getA (zeroT (monthDays 2025 6)) (fmtYmd ⟨2025, 6, 29⟩) = some 0 :=
  claim_C6_amended ⟨[], [], false⟩ ⟨2025, 6, 15⟩ (fun _ => DayRes.ok 2) "2025-06"
    0 5 CACHE_DURATION ⟨2025, 6, 29⟩ (by decide) (by decide)

/-- C8, counterexample: the mount effect of the trailing-window variant never
triggers an aggregation.  With an empty cache store (so no fresh entry exists)
the whole mount issues no remote call, writes nothing to the cache, and only
publishes the zero table: the claim's "otherwise it triggers an aggregation
for that month" is false for that variant. -/
theorem claim_C8_cex :
    (p4mount [] ⟨2025, 6, 29⟩).2.2.countP isRemoteEv = 0 ∧
    (p4mount [] ⟨2025, 6, 29⟩).2.2.countP isCacheWEv = 0 ∧
    (p4mount [] ⟨2025, 6, 29⟩).1.cache = [] := by
  refine ⟨by decide, by decide, by decide⟩

/-- C8, amended: in the full fan-out variant the mount behaves as claimed: it
stores the month of today as the active month key; with a fresh cached entry
for that month the whole mount is the immediate publish of that entry (no
remote call, no cache write, cache unchanged); with no entry it triggers the
aggregation, issuing one remote request per day of the month and committing
the joined table into the cache.  (The batch variant funnels its mount through
the same fetch routine; the trailing-window variant triggers nothing.) -/
theorem claim_C8_amended (cache : List (String × Entry)) (today : Ymd) (o : Ymd → DayRes)
    (nowChk nowC ttl : Nat) :
    (p3mount cache today o (fmtYm today) nowChk nowC ttl).2.1 = fmtYm today ∧
    (∀ e, getA cache (fmtYm today) = some e → nowChk - e.timestamp < ttl →
       p3mount cache today o (fmtYm today) nowChk nowC ttl =
         (⟨cache, e.counts, false⟩, fmtYm today, [Ev.publishT e.counts])) ∧
    (getA cache (fmtYm today) = none →
       (∀ d ∈ monthDays today.y today.m, o d ≠ DayRes.aborted) →
       (p3mount cache today o (fmtYm today) nowChk nowC ttl).2.2.countP isRemoteEv =
         (monthDays today.y today.m).length ∧
       getA (p3mount cache today o (fmtYm today) nowChk nowC ttl).1.cache (fmtYm today) =
         some ⟨p3join (zeroT (monthDays today.y today.m)) (monthDays today.y today.m) o, nowC⟩) := by
  refine ⟨?_, ?_, ?_⟩
  · simp only [p3mount]
    rcases h : getA cache (fmtYm today) with _ | e
    · rfl
    · by_cases h2 : nowChk - e.timestamp < ttl <;> simp [h2]
  · intro e hget hfresh
    simp only [p3mount]
    rw [hget]
    simp [hfresh]
  · intro hmiss hnoab
    simp only [p3mount]
    rw [hmiss]
    rw [p3fetch_commit ⟨cache, zeroT (monthDays today.y today.m), false⟩ today o nowChk nowC ttl
      hmiss hnoab]
    constructor
    · simp only [List.countP_cons, List.countP_append, countP_calls_remote, List.countP_nil]
      simp [isRemoteEv]
    · exact getA_setA_self _ _ _

/-- Witness for C8 (amended): a fresh June 2025 entry is republished as is by
the mount, and with an empty cache the mount issues one request per June day. -/
theorem claim_C8_witness :
    p3mount [("2025-06", (⟨[("2025-06-01", 9)], 0⟩ : Entry))] ⟨2025, 6, 29⟩
        (fun _ => DayRes.ok 1) (fmtYm ⟨2025, 6, 29⟩) 100 200 CACHE_DURATION =
      (⟨[("2025-06", (⟨[("2025-06-01", 9)], 0⟩ : Entry))], [("2025-06-01", 9)], false⟩,
       fmtYm ⟨2025, 6, 29⟩, [Ev.publishT [("2025-06-01", 9)]]) ∧
    (p3mount [] ⟨2025, 6, 29⟩ (fun _ => DayRes.ok 1) (fmtYm ⟨2025, 6, 29⟩)
        100 200 CACHE_DURATION).2.2.countP isRemoteEv = (monthDays 2025 6).length := by
  constructor
  · exact (claim_C8_amended [("2025-06", (⟨[("2025-06-01", 9)], 0⟩ : Entry))] ⟨2025, 6, 29⟩
      (fun _ => DayRes.ok 1) 100 200 CACHE_DURATION).2.1
      ⟨[("2025-06-01", 9)], 0⟩ (by decide) (by decide)
  · exact ((claim_C8_amended [] ⟨2025, 6, 29⟩ (fun _ => DayRes.ok 1)
      100 200 CACHE_DURATION).2.2 (by decide) (by decide)).1

/-- C9, counterexample: a details item whose path contains the date 2025/06/05
of the requested month, but whose leftmost occurrence of the \d4/\d2/\d2
pattern is the earlier noise segment 1111/11/11, is grouped under no day: the
code counts 0 for 2025-06-05 while the spec's "number of items whose storage
path contains d's date" counts 1. -/
theorem claim_C9_cex :
    getA (p2fetch ⟨[], [], false⟩ ⟨2025, 6, 15⟩
        (Except.ok ⟨none, some ["1111/11/11/2025/06/05/x.csv"]⟩)
        0 5 CACHE_DURATION).1.published "2025-06-05" = some 0 ∧
    specPathCount ["1111/11/11/2025/06/05/x.csv"] ⟨2025, 6, 5⟩ = 1 := by
  refine ⟨by decide, by decide⟩

/-- C9, amended: in the batch strategy, when the response carries a
precomputed per-day count mapping, each day of the month ends at the mapping's
(last) value for its key when present and 0 otherwise, entries under keys
outside the month being ignored; when the response instead carries a raw item
list, each day d of the month ends at the number of items whose LEFTMOST
occurrence of the YYYY/MM/DD pattern in the storage path denotes d (an item
whose first date-like substring is not d's date contributes nothing to d, even
if d's date appears later in the path). -/
theorem claim_C9_amended (st : St) (date : Ymd) (nowChk nowC ttl : Nat) (d : Ymd)
    (cm : List (String × Int)) (l : List String)
    (hmiss : getA st.cache (fmtYm date) = none)
    (hd : d ∈ monthDays date.y date.m) :
    getA (p2fetch st date (Except.ok ⟨some cm, none⟩) nowChk nowC ttl).1.published (fmtYmd d) =
      some ((lastA cm (fmtYmd d)).getD 0) ∧
    getA (p2fetch st date (Except.ok ⟨none, some l⟩) nowChk nowC ttl).1.published (fmtYmd d) =
      some ((countKey l (fmtYmd d) : Int)) := by
  constructor
  · rw [p2fetch_ok st date ⟨some cm, none⟩ nowChk nowC ttl hmiss]
    show getA (p2apply (zeroT (monthDays date.y date.m)) ⟨some cm, none⟩) (fmtYmd d) = _
    unfold p2apply
    rw [getA_gfold]
    have hfil : lastA (cm.filter
        (fun p => (getA (zeroT (monthDays date.y date.m)) p.1).isSome)) (fmtYmd d) =
        lastA cm (fmtYmd d) := by
      apply lastA_filter
      intro v
      rw [getA_zeroT (monthDays date.y date.m) d hd]
      rfl
    rw [hfil]
    rcases h2 : lastA cm (fmtYmd d) with _ | v
    · rw [getA_zeroT (monthDays date.y date.m) d hd]
      rfl
    · rfl
  · rw [p2fetch_ok st date ⟨none, some l⟩ nowChk nowC ttl hmiss]
    show getA (p2apply (zeroT (monthDays date.y date.m)) ⟨none, some l⟩) (fmtYmd d) = _
    unfold p2apply
    rw [getA_ifold, getA_zeroT (monthDays date.y date.m) d hd]
    simp

/-- Witness for C9 (amended): June 2025, a mapping giving the 5th the value 4,
and a details list with two items stored under 2025/06/05. -/
theorem claim_C9_witness :
    getA (p2fetch ⟨[], [], false⟩ ⟨2025, 6, 15⟩
        (Except.ok ⟨some [("2025-06-05", 4)], none⟩) 0 5 CACHE_DURATION).1.published
      (fmtYmd ⟨2025, 6, 5⟩) =
      some ((lastA [("2025-06-05", 4)] (fmtYmd ⟨2025, 6, 5⟩)).getD 0) ∧
    getA (p2fetch ⟨[], [], false⟩ ⟨2025, 6, 15⟩
        (Except.ok ⟨none, some ["2025/06/05/r1.csv", "2025/06/05/r2.csv"]⟩)
        0 5 CACHE_DURATION).1.published (fmtYmd ⟨2025, 6, 5⟩) =
      some ((countKey ["2025/06/05/r1.csv", "2025/06/05/r2.csv"] (fmtYmd ⟨2025, 6, 5⟩) : Int)) :=
  claim_C9_amended ⟨[], [], false⟩ ⟨2025, 6, 15⟩ 0 5 CACHE_DURATION ⟨2025, 6, 5⟩
    [("2025-06-05", 4)] ["2025/06/05/r1.csv", "2025/06/05/r2.csv"] (by decide) (by decide)
